import Mathlib

/-!
Shallow embedding of the game-event generator (`src/generator/generator.py`)
and verification of its specification.

The Python program keeps a global pool of mutable player dictionaries,
repeatedly generates one random gameplay event (`generate_event`), applies the
event's side effects to the selected player, and hands the event to a
PostgreSQL sink (`insert_event`).  Randomness (`random.choice`,
`random.choices`, `random.randint`, `random.random`) is modelled by explicit
inputs: each call site receives a natural-number roll (reduced modulo the size
of its range, so every roll value is a valid draw) or, for the one
`random.random() < 0.05` comparison, a boolean saying whether the 5% roll
fired.
-/

namespace Game

/-- Player record, mirroring the dictionaries built by `init_player_pool`.
`level`, `kills` and `deaths` are naturals (the code only ever increments
them from nonnegative starting values); `total_points` is an integer since
`death` events subtract points. -/
structure Player where
  player_id : String
  player_name : String
  level : Nat
  total_points : Int
  kills : Nat
  deaths : Nat
  deriving DecidableEq, Repr

/-- Default player used to totalise list indexing (never observable in the
theorems, which always index inside the pool). -/
def dfltPlayer : Player :=
  { player_id := "", player_name := "", level := 1,
    total_points := 0, kills := 0, deaths := 0 }

/-- The seven keys of the `ACTION_TYPES` dictionary. -/
inductive ActionType where
  | kill
  | death
  | headshot
  | assist
  | achievement
  | level_up
  | defuse_bomb
  deriving DecidableEq, Repr

/-- The keys of `ACTION_TYPES` in dictionary insertion order (the order seen
by `list(ACTION_TYPES.keys())` in `generate_event`). -/
def actionList : List ActionType :=
  [.kill, .death, .headshot, .assist, .achievement, .level_up, .defuse_bomb]

/-- Python-side string name of each action type. -/
def actionName : ActionType → String
  | .kill => "kill"
  | .death => "death"
  | .headshot => "headshot"
  | .assist => "assist"
  | .achievement => "achievement"
  | .level_up => "level_up"
  | .defuse_bomb => "defuse_bomb"

/-- The `weight` field of each `ACTION_TYPES` entry. -/
def weight : ActionType → Nat
  | .kill => 35
  | .death => 35
  | .headshot => 10
  | .assist => 8
  | .achievement => 7
  | .level_up => 3
  | .defuse_bomb => 2

/-- The `points_range` field of each `ACTION_TYPES` entry (inclusive min/max). -/
def pointsRange : ActionType → Int × Int
  | .kill => (10, 30)
  | .death => (-25, -10)
  | .headshot => (40, 60)
  | .assist => (5, 15)
  | .achievement => (50, 150)
  | .level_up => (100, 250)
  | .defuse_bomb => (80, 120)

/-- The `description` field of each `ACTION_TYPES` entry. -/
def description : ActionType → String
  | .kill => "Убийство противника"
  | .death => "Смерть игрока"
  | .headshot => "Убийство в голову"
  | .assist => "Помощь в убийстве"
  | .achievement => "Достижение разблокировано"
  | .level_up => "Повышение уровня"
  | .defuse_bomb => "Бомба обезврежена"

/-- The `WEAPONS` list. -/
def WEAPONS : List String :=
  ["AK-47", "M4A4", "M4A1-S", "AWP", "Desert Eagle",
   "P90", "UMP-45", "MP7", "Glock-18", "USP-S",
   "FAMAS", "Galil AR", "SSG 08", "Knife", "Grenade"]

/-- The `MAPS` list. -/
def MAPS : List String :=
  ["de_dust2", "de_inferno", "de_mirage", "de_nuke",
   "de_train", "de_overpass", "de_vertigo", "de_ancient"]

/-- Sum of all catalog weights, i.e. the total used by `random.choices`. -/
def totalWeight : Nat := (actionList.map weight).sum

/-- Walk the catalog in order, consuming the roll: the first action whose
weight exceeds the remaining roll is chosen.  This is the cumulative-weight
selection performed by `random.choices(action_types, weights=weights)`. -/
def pickWeighted : List ActionType → Nat → Option ActionType
  | [], _ => none
  | a :: rest, r => if r < weight a then some a else pickWeighted rest (r - weight a)

/-- `random.choices` over the catalog: the roll is reduced modulo the total
weight, so each of the `totalWeight` roll values selects exactly one action,
`weight a` of them selecting `a`. -/
def chooseAction (r : Nat) : ActionType :=
  (pickWeighted actionList (r % totalWeight)).getD .kill

/-- Model of `random.randint(lo, hi)` (inclusive bounds, integers): the roll
is reduced to an offset below the size of the range. -/
def randint (lo hi : Int) (r : Nat) : Int :=
  lo + ((r % (hi - lo + 1).toNat : Nat) : Int)

/-- Model of `random.randint(lo, hi)` on naturals (used for initial levels). -/
def randintNat (lo hi r : Nat) : Nat :=
  lo + r % (hi + 1 - lo)

/-- One call's worth of randomness for `generate_event`. -/
structure RandInput where
  playerRoll : Nat
  actionRoll : Nat
  pointsRoll : Nat
  levelRoll : Bool
  weaponRoll : Nat
  mapRoll : Nat

/-- Event dictionary returned by `generate_event`. -/
structure Event where
  player_id : String
  player_name : String
  action_type : String
  points : Int
  level : Nat
  weapon : Option String
  map_name : String
  deriving DecidableEq, Repr

/-- The in-place mutation `generate_event` applies to the selected player:
add the points, bump `kills`/`deaths` according to the action, then apply the
level-up rule (`level_up` action OR 5% roll, guarded by `level < 100`). -/
def updatePlayer (p : Player) (a : ActionType) (pts : Int) (roll5 : Bool) : Player :=
  let p1 := { p with total_points := p.total_points + pts }
  let p2 :=
    if a = .kill ∨ a = .headshot then { p1 with kills := p1.kills + 1 }
    else if a = .death then { p1 with deaths := p1.deaths + 1 }
    else p1
  if a = .level_up ∨ roll5 = true then
    if p2.level < 100 then { p2 with level := p2.level + 1 } else p2
  else p2

/-- Index of the player picked by `random.choice(PLAYER_POOL)`. -/
def selIdx (pool : List Player) (rnd : RandInput) : Nat :=
  rnd.playerRoll % pool.length

/-- `generate_event`: select a player and an action, draw points, mutate the
selected player in place (returning the updated pool) and assemble the event
dictionary from the post-mutation player record. -/
def generate_event (pool : List Player) (rnd : RandInput) : List Player × Event :=
  let i := selIdx pool rnd
  let player := pool.getD i dfltPlayer
  let action_type := chooseAction rnd.actionRoll
  let pr := pointsRange action_type
  let points := randint pr.1 pr.2 rnd.pointsRoll
  let player := updatePlayer player action_type points rnd.levelRoll
  let weapon : Option String :=
    if action_type = .kill ∨ action_type = .headshot ∨ action_type = .death then
      some (WEAPONS.getD (rnd.weaponRoll % WEAPONS.length) "")
    else none
  let map_name := MAPS.getD (rnd.mapRoll % MAPS.length) ""
  (pool.set i player,
   { player_id := player.player_id,
     player_name := player.player_name,
     action_type := actionName action_type,
     points := points,
     level := player.level,
     weapon := weapon,
     map_name := map_name })

/-- Pool after one `generate_event` call. -/
def genPool (pool : List Player) (rnd : RandInput) : List Player :=
  (generate_event pool rnd).1

/-- Event returned by one `generate_event` call. -/
def genEvent (pool : List Player) (rnd : RandInput) : Event :=
  (generate_event pool rnd).2

/-- Player at index `j` of a pool (total, via the default player). -/
def nthPlayer (pool : List Player) (j : Nat) : Player :=
  pool.getD j dfltPlayer

/-! ### Pool initialisation (`init_player_pool`) -/

/-- Little-endian decimal digits of `n`, computed with explicit fuel so that
the definition reduces in the kernel (`fuel ≥ n` suffices). -/
def digitsAux : Nat → Nat → List Nat
  | 0, _ => []
  | fuel + 1, n => if n = 0 then [] else n % 10 :: digitsAux fuel (n / 10)

/-- Little-endian decimal digits of `n` (empty for `0`). -/
def decDigits (n : Nat) : List Nat := digitsAux n n

/-- Decimal digits of `i` (little-endian), right-padded with zeros to at
least four digits — i.e. the digit list of Python's `f-string` format
`{i:04d}`, least significant digit first. -/
def padDigits (i : Nat) : List Nat :=
  decDigits i ++ List.replicate (4 - (decDigits i).length) 0

/-- The id string `f'PLAYER_{i:04d}'`. -/
def mkPlayerId (i : Nat) : String :=
  "PLAYER_" ++ String.mk ((padDigits i).reverse.map Nat.digitChar)

/-- The player dictionary built for index `i` in `init_player_pool`'s loop.
`fake.user_name()` is modelled by an arbitrary name source `nameGen`, and
`random.randint(1, 50)` by a roll stream `levelRoll`. -/
def mkPlayer (nameGen : Nat → String) (levelRoll : Nat → Nat) (i : Nat) : Player :=
  { player_id := mkPlayerId i,
    player_name := nameGen i,
    level := randintNat 1 50 (levelRoll i),
    total_points := 0,
    kills := 0,
    deaths := 0 }

/-- `init_player_pool(size)`: the pool `[player 0, …, player (size-1)]`. -/
def init_player_pool (size : Nat) (nameGen : Nat → String) (levelRoll : Nat → Nat) :
    List Player :=
  (List.range size).map (mkPlayer nameGen levelRoll)

/-! ### Main loop (`main` + `insert_event`) -/

/-- State carried across iterations of `main`'s `while True` loop: the player
pool and the count of successfully persisted events. -/
structure LoopState where
  pool : List Player
  event_count : Nat
  deriving Repr

/-- One iteration of the main loop: `generate_event`, then `insert_event`
(whose success is the external input `ok` — on an insert exception the
function catches it, rolls back the transaction and returns `False`), and
`event_count += 1` only when the insert succeeded.  The iteration always
returns a successor state: the loop body never terminates the loop on a
failed insert. -/
def stepMain (ok : Bool) (rnd : RandInput) (s : LoopState) : LoopState × Event :=
  let pe := generate_event s.pool rnd
  ({ pool := pe.1,
     event_count := if ok then s.event_count + 1 else s.event_count },
   pe.2)

/-- Run of the main loop over a finite schedule of iterations, each with its
randomness and its insert outcome; returns the final state and all generated
events in order. -/
def runMain : List (Bool × RandInput) → LoopState → LoopState × List Event
  | [], s => (s, [])
  | x :: rest, s =>
    let se := stepMain x.1 x.2 s
    let fin := runMain rest se.1
    (fin.1, se.2 :: fin.2)

/-! ### Reporting (`print_statistics` top players) -/

/-- Ordering used by `sorted(PLAYER_POOL, key=lambda p: p['total_points'],
reverse=True)`: `p` may come before `q` when `p` has at least as many
points. -/
def ptsGe (p q : Player) : Prop := q.total_points ≤ p.total_points

instance : DecidableRel ptsGe := fun p q =>
  inferInstanceAs (Decidable (q.total_points ≤ p.total_points))

instance : IsTotal Player ptsGe := ⟨fun p q => le_total q.total_points p.total_points⟩

instance : IsTrans Player ptsGe := ⟨fun _ _ _ h h2 => le_trans h2 h⟩

/-- Python's `sorted(..., key=lambda p: p['total_points'], reverse=True)`:
a stable descending sort on `total_points` (Timsort is stable and the
`reverse` flag preserves stability), embedded as the stable insertion sort
on the `ptsGe` preorder. -/
def sortByPoints (pool : List Player) : List Player :=
  List.insertionSort ptsGe pool

/-- The top-`n` selection `sorted(...)[:n]` used for reporting (the code
calls it with `n = 3`). -/
def topN (n : Nat) (pool : List Player) : List Player :=
  (sortByPoints pool).take n

/-- The `top_players` slice of `print_statistics`. -/
def top_players (pool : List Player) : List Player := topN 3 pool

/-- Action chosen by a call of `generate_event`; it depends only on the
randomness, not on the pool. -/
def genAction (rnd : RandInput) : ActionType := chooseAction rnd.actionRoll

/-- Points drawn by a call of `generate_event`. -/
def genPoints (rnd : RandInput) : Int :=
  randint (pointsRange (genAction rnd)).1 (pointsRange (genAction rnd)).2 rnd.pointsRoll

/-- The mutated record of the selected player after a `generate_event` call. -/
def genSelected (pool : List Player) (rnd : RandInput) : Player :=
  updatePlayer (nthPlayer pool (selIdx pool rnd)) (genAction rnd) (genPoints rnd)
    rnd.levelRoll

/-! ### Basic lemmas about the single-event step -/

theorem updatePlayer_player_id (p : Player) (a : ActionType) (pts : Int) (b : Bool) :
    (updatePlayer p a pts b).player_id = p.player_id := by
  simp only [updatePlayer]
  split_ifs <;> rfl

theorem updatePlayer_player_name (p : Player) (a : ActionType) (pts : Int) (b : Bool) :
    (updatePlayer p a pts b).player_name = p.player_name := by
  simp only [updatePlayer]
  split_ifs <;> rfl

theorem updatePlayer_total_points (p : Player) (a : ActionType) (pts : Int) (b : Bool) :
    (updatePlayer p a pts b).total_points = p.total_points + pts := by
  simp only [updatePlayer]
  split_ifs <;> rfl

theorem updatePlayer_kills (p : Player) (a : ActionType) (pts : Int) (b : Bool) :
    (updatePlayer p a pts b).kills =
      p.kills + (if a = .kill ∨ a = .headshot then 1 else 0) := by
  simp only [updatePlayer]
  split_ifs <;> simp

theorem updatePlayer_deaths (p : Player) (a : ActionType) (pts : Int) (b : Bool) :
    (updatePlayer p a pts b).deaths =
      p.deaths + (if a = .death then 1 else 0) := by
  simp only [updatePlayer]
  split_ifs <;> simp_all

theorem updatePlayer_level (p : Player) (a : ActionType) (pts : Int) (b : Bool) :
    (updatePlayer p a pts b).level =
      if (a = .level_up ∨ b = true) ∧ p.level < 100 then p.level + 1 else p.level := by
  simp only [updatePlayer]
  split_ifs <;> simp_all

/-- `generate_event` written as a closed form: the pool with the selected
index overwritten by the mutated player, and the event assembled from that
mutated record. -/
theorem generate_event_eq (pool : List Player) (rnd : RandInput) :
    generate_event pool rnd =
      (pool.set (selIdx pool rnd) (genSelected pool rnd),
       { player_id := (genSelected pool rnd).player_id,
         player_name := (genSelected pool rnd).player_name,
         action_type := actionName (genAction rnd),
         points := genPoints rnd,
         level := (genSelected pool rnd).level,
         weapon :=
           if genAction rnd = .kill ∨ genAction rnd = .headshot ∨ genAction rnd = .death
           then some (WEAPONS.getD (rnd.weaponRoll % WEAPONS.length) "")
           else none,
         map_name := MAPS.getD (rnd.mapRoll % MAPS.length) "" }) := rfl

theorem selIdx_lt (pool : List Player) (rnd : RandInput) (h : 0 < pool.length) :
    selIdx pool rnd < pool.length :=
  Nat.mod_lt _ h

theorem genPool_length (pool : List Player) (rnd : RandInput) :
    (genPool pool rnd).length = pool.length := by
  simp [genPool, generate_event_eq]

theorem nthPlayer_set_self (pool : List Player) (i : Nat) (p : Player)
    (h : i < pool.length) : nthPlayer (pool.set i p) i = p := by
  simp [nthPlayer, List.getD_eq_getElem?_getD, List.getElem?_set_self, h]

theorem nthPlayer_set_other (pool : List Player) (i j : Nat) (p : Player)
    (hij : j ≠ i) : nthPlayer (pool.set i p) j = nthPlayer pool j := by
  simp [nthPlayer, List.getD_eq_getElem?_getD, List.getElem?_set_ne (Ne.symm hij)]

theorem nthPlayer_genPool_sel (pool : List Player) (rnd : RandInput)
    (h : 0 < pool.length) :
    nthPlayer (genPool pool rnd) (selIdx pool rnd) = genSelected pool rnd := by
  rw [genPool, generate_event_eq]
  exact nthPlayer_set_self _ _ _ (selIdx_lt pool rnd h)

theorem nthPlayer_genPool_other (pool : List Player) (rnd : RandInput) (j : Nat)
    (hj : j ≠ selIdx pool rnd) :
    nthPlayer (genPool pool rnd) j = nthPlayer pool j := by
  rw [genPool, generate_event_eq]
  exact nthPlayer_set_other _ _ _ _ hj

theorem genPool_map_id (pool : List Player) (rnd : RandInput) :
    (genPool pool rnd).map Player.player_id = pool.map Player.player_id := by
  rw [genPool, generate_event_eq]
  apply List.ext_getElem?
  intro n
  rw [List.getElem?_map, List.getElem?_map, List.getElem?_set]
  split_ifs with h1 h2
  · subst h1
    have : pool[selIdx pool rnd]? = some (pool.getD (selIdx pool rnd) dfltPlayer) := by
      rw [List.getD_eq_getElem?_getD, List.getElem?_eq_getElem h2]
      rfl
    rw [this]
    simp [genSelected, updatePlayer_player_id, nthPlayer,
      List.getD_eq_getElem?_getD, List.getElem?_eq_getElem h2]
  · subst h1
    rw [List.getElem?_eq_none (Nat.le_of_not_lt h2)]
  · rfl

theorem randint_bounds (lo hi : Int) (r : Nat) (h : lo ≤ hi) :
    lo ≤ randint lo hi r ∧ randint lo hi r ≤ hi := by
  unfold randint
  have hpos : (0 : Int) < hi - lo + 1 := by omega
  have hlt : r % (hi - lo + 1).toNat < (hi - lo + 1).toNat :=
    Nat.mod_lt _ (by omega)
  have hcast : ((hi - lo + 1).toNat : Int) = hi - lo + 1 := Int.toNat_of_nonneg (by omega)
  constructor
  · omega
  · have : ((r % (hi - lo + 1).toNat : Nat) : Int) < hi - lo + 1 := by
      calc ((r % (hi - lo + 1).toNat : Nat) : Int) < ((hi - lo + 1).toNat : Int) := by
            exact_mod_cast hlt
        _ = hi - lo + 1 := hcast
    omega

theorem nthPlayer_mem (pool : List Player) (j : Nat) (h : j < pool.length) :
    nthPlayer pool j ∈ pool := by
  rw [nthPlayer, List.getD_eq_getElem?_getD, List.getElem?_eq_getElem h]
  exact List.getElem_mem h

theorem genPool_empty (rnd : RandInput) : genPool [] rnd = [] := by
  simp [genPool, generate_event_eq]

/-! ### Claim properties as decidable predicates over the embedding -/

/-- Property of C4: effect of one event on the selected player's kill and
death counters, by action category. -/
def killsDeathsCorrect (pool : List Player) (rnd : RandInput) : Prop :=
  ((genAction rnd = .kill ∨ genAction rnd = .headshot) →
    (nthPlayer (genPool pool rnd) (selIdx pool rnd)).kills =
        (nthPlayer pool (selIdx pool rnd)).kills + 1 ∧
      (nthPlayer (genPool pool rnd) (selIdx pool rnd)).deaths =
        (nthPlayer pool (selIdx pool rnd)).deaths) ∧
  (genAction rnd = .death →
    (nthPlayer (genPool pool rnd) (selIdx pool rnd)).deaths =
        (nthPlayer pool (selIdx pool rnd)).deaths + 1 ∧
      (nthPlayer (genPool pool rnd) (selIdx pool rnd)).kills =
        (nthPlayer pool (selIdx pool rnd)).kills) ∧
  (¬(genAction rnd = .kill ∨ genAction rnd = .headshot ∨ genAction rnd = .death) →
    (nthPlayer (genPool pool rnd) (selIdx pool rnd)).kills =
        (nthPlayer pool (selIdx pool rnd)).kills ∧
      (nthPlayer (genPool pool rnd) (selIdx pool rnd)).deaths =
        (nthPlayer pool (selIdx pool rnd)).deaths)

/-- Property of C2 (single step): the selected player's level after one event
is the old level plus one exactly when the level-up condition fires below the
cap, else unchanged. -/
def levelRuleCorrect (pool : List Player) (rnd : RandInput) : Prop :=
  (nthPlayer (genPool pool rnd) (selIdx pool rnd)).level =
    if (genAction rnd = .level_up ∨ rnd.levelRoll = true) ∧
        (nthPlayer pool (selIdx pool rnd)).level < 100
    then (nthPlayer pool (selIdx pool rnd)).level + 1
    else (nthPlayer pool (selIdx pool rnd)).level

/-- Property of C5: conditional weapon field, unconditional map field, and
post-mutation level snapshot on the returned event. -/
def eventFieldsCorrect (pool : List Player) (rnd : RandInput) : Prop :=
  ((genEvent pool rnd).weapon.isSome = true ↔
    (genAction rnd = .kill ∨ genAction rnd = .headshot ∨ genAction rnd = .death)) ∧
  (∀ w, (genEvent pool rnd).weapon = some w → w ∈ WEAPONS) ∧
  (genEvent pool rnd).map_name ∈ MAPS ∧
  (genEvent pool rnd).level = (nthPlayer (genPool pool rnd) (selIdx pool rnd)).level

/-- Property of C7: one event mutates only the selected slot, keeps the pool
size, and never touches `player_id` or `player_name`. -/
def frameCorrect (pool : List Player) (rnd : RandInput) : Prop :=
  (genPool pool rnd).length = pool.length ∧
  (∀ j, j ≠ selIdx pool rnd → nthPlayer (genPool pool rnd) j = nthPlayer pool j) ∧
  (nthPlayer (genPool pool rnd) (selIdx pool rnd)).player_id =
    (nthPlayer pool (selIdx pool rnd)).player_id ∧
  (nthPlayer (genPool pool rnd) (selIdx pool rnd)).player_name =
    (nthPlayer pool (selIdx pool rnd)).player_name

/-! ### Claim theorems -/

/-- C4: on each `generate_event` call, `kill` or `headshot` increments the
selected player's `kills` by exactly 1 leaving `deaths` unchanged, `death`
increments `deaths` by exactly 1 leaving `kills` unchanged, and every other
action changes neither counter. -/
theorem generate_event_kills_deaths (pool : List Player) (rnd : RandInput)
    (h : 0 < pool.length) : killsDeathsCorrect pool rnd := by
  unfold killsDeathsCorrect
  rw [nthPlayer_genPool_sel pool rnd h]
  unfold genSelected
  rw [updatePlayer_kills, updatePlayer_deaths]
  refine ⟨fun ha => ?_, fun ha => ?_, fun ha => ?_⟩
  · rcases ha with ha | ha <;> simp [ha]
  · simp [ha]
  · push_neg at ha
    simp [ha.1, ha.2.1, ha.2.2]

/-- C2: the selected player's level increases by exactly 1 iff (`level_up`
action OR the 5% roll fired) and the level is below 100 — a single increment
even when both triggers fire — and consequently along any run of the main
loop every player's level is non-decreasing and never exceeds 100. -/
theorem generate_event_level_rule :
    (∀ pool rnd, 0 < pool.length → levelRuleCorrect pool rnd) ∧
    (∀ (inputs : List (Bool × RandInput)) (s : LoopState) (j : Nat),
      (nthPlayer s.pool j).level ≤ (nthPlayer (runMain inputs s).1.pool j).level) ∧
    (∀ (inputs : List (Bool × RandInput)) (s : LoopState),
      (∀ j, (nthPlayer s.pool j).level ≤ 100) →
      ∀ j, (nthPlayer (runMain inputs s).1.pool j).level ≤ 100) := by
  have hstep_le : ∀ pool rnd j,
      (nthPlayer pool j).level ≤ (nthPlayer (genPool pool rnd) j).level := by
    intro pool rnd j
    by_cases hj : j = selIdx pool rnd
    · subst hj
      rcases Nat.eq_zero_or_pos pool.length with h0 | hpos
      · have : pool = [] := List.length_eq_zero.mp h0
        subst this
        rw [genPool_empty]
      · rw [nthPlayer_genPool_sel pool rnd hpos]
        unfold genSelected
        rw [updatePlayer_level]
        split <;> omega
    · rw [nthPlayer_genPool_other pool rnd j hj]
  have hstep_cap : ∀ pool rnd,
      (∀ j, (nthPlayer pool j).level ≤ 100) →
      ∀ j, (nthPlayer (genPool pool rnd) j).level ≤ 100 := by
    intro pool rnd hall j
    by_cases hj : j = selIdx pool rnd
    · subst hj
      rcases Nat.eq_zero_or_pos pool.length with h0 | hpos
      · have : pool = [] := List.length_eq_zero.mp h0
        subst this
        rw [genPool_empty]
        exact hall _
      · rw [nthPlayer_genPool_sel pool rnd hpos]
        unfold genSelected
        rw [updatePlayer_level]
        have := hall (selIdx pool rnd)
        split <;> omega
    · rw [nthPlayer_genPool_other pool rnd j hj]
      exact hall j
  refine ⟨?_, ?_, ?_⟩
  · intro pool rnd h
    unfold levelRuleCorrect
    rw [nthPlayer_genPool_sel pool rnd h]
    unfold genSelected
    rw [updatePlayer_level]
  · intro inputs
    induction inputs with
    | nil => intro s j; exact le_refl _
    | cons x rest ih =>
      intro s j
      have h1 := hstep_le s.pool x.2 j
      have h2 := ih (stepMain x.1 x.2 s).1 j
      simp only [runMain]
      exact le_trans h1 h2
  · intro inputs
    induction inputs with
    | nil => intro s hall j; exact hall j
    | cons x rest ih =>
      intro s hall j
      simp only [runMain]
      exact ih (stepMain x.1 x.2 s).1 (hstep_cap s.pool x.2 hall) j

/-- C5: every returned event carries a weapon exactly for `kill`, `headshot`
and `death` (drawn from the weapon catalog), always carries a map from the
map catalog, and records the selected player's post-mutation level. -/
theorem generate_event_fields (pool : List Player) (rnd : RandInput)
    (h : 0 < pool.length) : eventFieldsCorrect pool rnd := by
  unfold eventFieldsCorrect
  rw [nthPlayer_genPool_sel pool rnd h]
  have hev : genEvent pool rnd =
      { player_id := (genSelected pool rnd).player_id,
        player_name := (genSelected pool rnd).player_name,
        action_type := actionName (genAction rnd),
        points := genPoints rnd,
        level := (genSelected pool rnd).level,
        weapon :=
          if genAction rnd = .kill ∨ genAction rnd = .headshot ∨ genAction rnd = .death
          then some (WEAPONS.getD (rnd.weaponRoll % WEAPONS.length) "")
          else none,
        map_name := MAPS.getD (rnd.mapRoll % MAPS.length) "" } := by
    rw [genEvent, generate_event_eq]
  rw [hev]
  refine ⟨?_, ?_, ?_, rfl⟩
  · constructor
    · intro hw
      by_contra hcon
      simp [hcon] at hw
    · intro ha
      simp [ha]
  · intro w hw
    split at hw
    · have hlen : rnd.weaponRoll % WEAPONS.length < WEAPONS.length :=
        Nat.mod_lt _ (by decide)
      rw [List.getD_eq_getElem?_getD, List.getElem?_eq_getElem hlen] at hw
      simp only [Option.getD_some, Option.some_inj] at hw
      subst hw
      exact List.getElem_mem hlen
    · exact absurd hw (by simp)
  · have hlen : rnd.mapRoll % MAPS.length < MAPS.length := Nat.mod_lt _ (by decide)
    show MAPS.getD (rnd.mapRoll % MAPS.length) "" ∈ MAPS
    rw [List.getD_eq_getElem?_getD, List.getElem?_eq_getElem hlen]
    exact List.getElem_mem hlen

/-- C7: each `generate_event` call mutates exactly the selected slot of the
pool — all other players and the pool size are unchanged — and the selected
player's `player_id` and `player_name` are preserved. -/
theorem generate_event_frame (pool : List Player) (rnd : RandInput) :
    frameCorrect pool rnd := by
  unfold frameCorrect
  refine ⟨genPool_length pool rnd, fun j hj => nthPlayer_genPool_other pool rnd j hj, ?_, ?_⟩
  · rcases Nat.eq_zero_or_pos pool.length with h0 | hpos
    · have : pool = [] := List.length_eq_zero.mp h0
      subst this
      rw [genPool_empty]
    · rw [nthPlayer_genPool_sel pool rnd hpos]
      unfold genSelected
      exact updatePlayer_player_id _ _ _ _
  · rcases Nat.eq_zero_or_pos pool.length with h0 | hpos
    · have : pool = [] := List.length_eq_zero.mp h0
      subst this
      rw [genPool_empty]
    · rw [nthPlayer_genPool_sel pool rnd hpos]
      unfold genSelected
      exact updatePlayer_player_name _ _ _ _
/-! ### Lemmas for pool initialisation -/

theorem ofDigits_digitsAux :
    ∀ fuel n : Nat, n ≤ fuel → Nat.ofDigits 10 (digitsAux fuel n) = n := by
  intro fuel
  induction fuel with
  | zero =>
    intro n h
    have : n = 0 := Nat.le_zero.mp h
    subst this
    rfl
  | succ fuel ih =>
    intro n h
    unfold digitsAux
    split
    · simp_all [Nat.ofDigits_nil]
    · rename_i hn
      rw [Nat.ofDigits_cons, ih (n / 10) ?_]
      · omega
      · have : n / 10 < n := Nat.div_lt_self (Nat.pos_of_ne_zero hn) (by omega)
        omega

theorem ofDigits_decDigits (n : Nat) : Nat.ofDigits 10 (decDigits n) = n :=
  ofDigits_digitsAux n n (le_refl n)

theorem ofDigits_replicate_zero (b n : Nat) :
    Nat.ofDigits b (List.replicate n 0) = 0 := by
  induction n with
  | zero => rfl
  | succ n ih => rw [List.replicate_succ, Nat.ofDigits_cons, ih]; simp

theorem ofDigits_padDigits (i : Nat) : Nat.ofDigits 10 (padDigits i) = i := by
  unfold padDigits
  rw [Nat.ofDigits_append, ofDigits_decDigits, ofDigits_replicate_zero]
  simp

theorem digitsAux_lt_ten :
    ∀ fuel n d : Nat, d ∈ digitsAux fuel n → d < 10 := by
  intro fuel
  induction fuel with
  | zero => intro n d h; simp [digitsAux] at h
  | succ fuel ih =>
    intro n d h
    unfold digitsAux at h
    split at h
    · simp at h
    · rcases List.mem_cons.mp h with h1 | h1
      · subst h1; exact Nat.mod_lt _ (by omega)
      · exact ih _ _ h1

theorem padDigits_lt_ten (i d : Nat) (h : d ∈ padDigits i) : d < 10 := by
  unfold padDigits at h
  rcases List.mem_append.mp h with h1 | h1
  · exact digitsAux_lt_ten _ _ _ h1
  · have : d = 0 := List.eq_of_mem_replicate h1
    omega

/-- Left inverse of `Nat.digitChar` on decimal digits. -/
def undigit (c : Char) : Nat := c.toNat - 48

theorem undigit_digitChar : ∀ d : Nat, d < 10 → undigit (Nat.digitChar d) = d := by
  decide

theorem mkPlayerId_injective : Function.Injective mkPlayerId := by
  intro i j h
  unfold mkPlayerId at h
  have hdata := congrArg String.data h
  rw [String.data_append, String.data_append] at hdata
  have h2 : (padDigits i).reverse.map Nat.digitChar =
      (padDigits j).reverse.map Nat.digitChar :=
    List.append_cancel_left hdata
  have hinv : ∀ k : Nat,
      ((padDigits k).reverse.map Nat.digitChar).map undigit = (padDigits k).reverse := by
    intro k
    rw [List.map_map]
    have hc : ∀ a ∈ (padDigits k).reverse, (undigit ∘ Nat.digitChar) a = id a := by
      intro a ha
      exact undigit_digitChar a (padDigits_lt_ten k a (List.mem_reverse.mp ha))
    rw [List.map_congr_left hc, List.map_id]
  have h3 : (padDigits i).reverse = (padDigits j).reverse := by
    rw [← hinv i, ← hinv j, h2]
  have h4 : padDigits i = padDigits j := List.reverse_injective h3
  have h5 := congrArg (Nat.ofDigits 10) h4
  rwa [ofDigits_padDigits, ofDigits_padDigits] at h5

/-- Property of C8: `init_player_pool size` builds exactly `size` players,
with pairwise-distinct sequential ids, levels in `[1, 50]`, and all counters
zero. -/
def initPoolCorrect (size : Nat) (nameGen : Nat → String) (levelRoll : Nat → Nat) : Prop :=
  (init_player_pool size nameGen levelRoll).length = size ∧
  ((init_player_pool size nameGen levelRoll).map Player.player_id).Nodup ∧
  ∀ i, i < size →
    (nthPlayer (init_player_pool size nameGen levelRoll) i).player_id = mkPlayerId i ∧
    1 ≤ (nthPlayer (init_player_pool size nameGen levelRoll) i).level ∧
    (nthPlayer (init_player_pool size nameGen levelRoll) i).level ≤ 50 ∧
    (nthPlayer (init_player_pool size nameGen levelRoll) i).total_points = 0 ∧
    (nthPlayer (init_player_pool size nameGen levelRoll) i).kills = 0 ∧
    (nthPlayer (init_player_pool size nameGen levelRoll) i).deaths = 0

/-- C8: for every pool size, `init_player_pool` produces exactly that many
players, with pairwise-distinct zero-padded sequential ids
(`PLAYER_0000`, …), levels in `[1, 50]` and all counters starting at zero. -/
theorem init_player_pool_correct (size : Nat) (nameGen : Nat → String)
    (levelRoll : Nat → Nat) : initPoolCorrect size nameGen levelRoll := by
  unfold initPoolCorrect init_player_pool
  refine ⟨by simp, ?_, ?_⟩
  · rw [List.map_map]
    have : (Player.player_id ∘ mkPlayer nameGen levelRoll) = mkPlayerId := by
      funext i
      rfl
    rw [this]
    exact (List.nodup_range _).map mkPlayerId_injective
  · intro i hi
    have hi2 : i < ((List.range size).map (mkPlayer nameGen levelRoll)).length := by
      simpa using hi
    have hnth : nthPlayer ((List.range size).map (mkPlayer nameGen levelRoll)) i =
        mkPlayer nameGen levelRoll i := by
      rw [nthPlayer, List.getD_eq_getElem?_getD, List.getElem?_eq_getElem hi2]
      simp [hi]
    rw [hnth]
    refine ⟨rfl, ?_, ?_, rfl, rfl, rfl⟩
    · exact Nat.le_add_right 1 _
    · show 1 + levelRoll i % (50 + 1 - 1) ≤ 50
      have : levelRoll i % 50 < 50 := Nat.mod_lt _ (by omega)
      omega

/-- C3: the weighted choice gives each action a probability of exactly its
weight over the total: the catalog weights sum to 100, and out of the 100
possible roll values exactly `weight a` select action `a`. -/
theorem chooseAction_weights :
    totalWeight = 100 ∧
    ∀ a ∈ actionList,
      ((Finset.range totalWeight).filter (fun r => chooseAction r = a)).card = weight a := by
  constructor
  · decide
  · decide

/-- Property of C10: the selected player's `total_points` strictly increases
on every non-`death` event and strictly decreases on every `death` event. -/
def pointsMonotonicity (pool : List Player) (rnd : RandInput) : Prop :=
  (genAction rnd ≠ .death →
    (nthPlayer pool (selIdx pool rnd)).total_points <
      (nthPlayer (genPool pool rnd) (selIdx pool rnd)).total_points) ∧
  (genAction rnd = .death →
    (nthPlayer (genPool pool rnd) (selIdx pool rnd)).total_points <
      (nthPlayer pool (selIdx pool rnd)).total_points)

/-- C10: `death` is the only action whose points range contains negative
values — every other category has minimum at least 5 — so `total_points`
strictly increases on every non-`death` event and strictly decreases exactly
on `death` events. -/
theorem death_only_negative :
    (∀ a : ActionType, a ≠ .death → 5 ≤ (pointsRange a).1) ∧
    (∀ a : ActionType, ((pointsRange a).1 < 0 ↔ a = .death)) ∧
    (pointsRange .death).2 < 0 ∧
    (∀ pool rnd, 0 < pool.length → pointsMonotonicity pool rnd) := by
  have hmin : ∀ a : ActionType, a ≠ .death → 5 ≤ (pointsRange a).1 := by
    intro a; cases a <;> decide
  have hlohi : ∀ a : ActionType, (pointsRange a).1 ≤ (pointsRange a).2 := by
    intro a; cases a <;> decide
  have hiff : ∀ a : ActionType, ((pointsRange a).1 < 0 ↔ a = .death) := by
    intro a; cases a <;> decide
  refine ⟨hmin, hiff, by decide, ?_⟩
  intro pool rnd h
  unfold pointsMonotonicity
  rw [nthPlayer_genPool_sel pool rnd h]
  unfold genSelected
  rw [updatePlayer_total_points]
  have hb := randint_bounds (pointsRange (genAction rnd)).1 (pointsRange (genAction rnd)).2
    rnd.pointsRoll (hlohi _)
  have hpts : genPoints rnd = randint (pointsRange (genAction rnd)).1
      (pointsRange (genAction rnd)).2 rnd.pointsRoll := rfl
  constructor
  · intro hne
    have h5 := hmin _ hne
    rw [hpts]
    omega
  · intro heq
    rw [hpts]
    rw [heq] at hb ⊢
    have hmax : (pointsRange ActionType.death).2 = -10 := rfl
    omega

/-- C6: when persisting an event fails, the event counter is left unchanged
(while a success increments it by exactly 1), the player-pool mutation is
exactly the one a successful cycle would have applied (no rollback), and the
loop goes on to process every remaining cycle. -/
theorem insert_failure_accounting :
    (∀ rnd s, (stepMain false rnd s).1.event_count = s.event_count) ∧
    (∀ rnd s, (stepMain true rnd s).1.event_count = s.event_count + 1) ∧
    (∀ rnd s, (stepMain false rnd s).1.pool = (stepMain true rnd s).1.pool ∧
      (stepMain false rnd s).1.pool = genPool s.pool rnd) ∧
    (∀ (x : Bool × RandInput) rest s,
      runMain (x :: rest) s =
        ((runMain rest (stepMain x.1 x.2 s).1).1,
         (stepMain x.1 x.2 s).2 :: (runMain rest (stepMain x.1 x.2 s).1).2)) ∧
    (∀ inputs s, ((runMain inputs s).2).length = inputs.length) := by
  refine ⟨fun rnd s => rfl, fun rnd s => rfl, fun rnd s => ⟨rfl, rfl⟩,
    fun x rest s => rfl, ?_⟩
  intro inputs
  induction inputs with
  | nil => intro s; rfl
  | cons x rest ih =>
    intro s
    simp only [runMain, List.length_cons]
    rw [ih]
/-! ### Lemmas for the points accounting invariant -/

theorem genEvent_player_id (pool : List Player) (rnd : RandInput) :
    (genEvent pool rnd).player_id = (nthPlayer pool (selIdx pool rnd)).player_id := by
  rw [genEvent, generate_event_eq]
  exact updatePlayer_player_id _ _ _ _

theorem genEvent_points (pool : List Player) (rnd : RandInput) :
    (genEvent pool rnd).points = genPoints rnd := rfl

theorem nthPlayer_genPool_id (pool : List Player) (rnd : RandInput) (j : Nat) :
    (nthPlayer (genPool pool rnd) j).player_id = (nthPlayer pool j).player_id := by
  by_cases hj : j = selIdx pool rnd
  · subst hj
    rcases Nat.eq_zero_or_pos pool.length with h0 | hpos
    · have : pool = [] := List.length_eq_zero.mp h0
      subst this
      rw [genPool_empty]
    · rw [nthPlayer_genPool_sel pool rnd hpos]
      exact updatePlayer_player_id _ _ _ _
  · rw [nthPlayer_genPool_other pool rnd j hj]

theorem nthPlayer_id_ne (pool : List Player)
    (hnodup : (pool.map Player.player_id).Nodup) (i j : Nat)
    (hi : i < pool.length) (hj : j < pool.length) (hij : i ≠ j) :
    (nthPlayer pool i).player_id ≠ (nthPlayer pool j).player_id := by
  intro heq
  have hi2 : i < (pool.map Player.player_id).length := by simpa using hi
  have hj2 : j < (pool.map Player.player_id).length := by simpa using hj
  have h1 : (pool.map Player.player_id)[i] = (pool.map Player.player_id)[j] := by
    rw [List.getElem_map, List.getElem_map]
    rw [nthPlayer, List.getD_eq_getElem?_getD, List.getElem?_eq_getElem hi] at heq
    rw [nthPlayer, List.getD_eq_getElem?_getD, List.getElem?_eq_getElem hj] at heq
    exact heq
  exact hij (hnodup.getElem_inj_iff.mp h1)

theorem nthPlayer_genPool_total_points (pool : List Player) (rnd : RandInput)
    (h : 0 < pool.length) (j : Nat) :
    (nthPlayer (genPool pool rnd) j).total_points =
      (nthPlayer pool j).total_points +
        (if j = selIdx pool rnd then genPoints rnd else 0) := by
  by_cases hj : j = selIdx pool rnd
  · subst hj
    rw [nthPlayer_genPool_sel pool rnd h]
    unfold genSelected
    rw [updatePlayer_total_points]
    simp
  · rw [nthPlayer_genPool_other pool rnd j hj]
    simp [hj]

/-- The running points-accounting equation: after any schedule of loop
iterations, each slot's `total_points` is its starting value plus the sum of
the points of exactly those generated events that carry its `player_id`. -/
theorem totalPoints_run (inputs : List (Bool × RandInput)) :
    ∀ (s : LoopState) (j : Nat),
      (s.pool.map Player.player_id).Nodup → j < s.pool.length →
      (nthPlayer (runMain inputs s).1.pool j).total_points =
        (nthPlayer s.pool j).total_points +
          (((runMain inputs s).2.filter
              (fun e => e.player_id == (nthPlayer s.pool j).player_id)).map
            Event.points).sum := by
  induction inputs with
  | nil =>
    intro s j _ _
    simp [runMain]
  | cons x rest ih =>
    intro s j hnodup hj
    have hpos : 0 < s.pool.length := Nat.lt_of_le_of_lt (Nat.zero_le j) hj
    have hi : selIdx s.pool x.2 < s.pool.length := selIdx_lt _ _ hpos
    set pool2 := genPool s.pool x.2 with hpool2
    have hs2pool : (stepMain x.1 x.2 s).1.pool = pool2 := rfl
    have hnodup2 : ((stepMain x.1 x.2 s).1.pool.map Player.player_id).Nodup := by
      rw [hs2pool, hpool2, genPool_map_id]
      exact hnodup
    have hj2 : j < (stepMain x.1 x.2 s).1.pool.length := by
      rw [hs2pool, hpool2, genPool_length]
      exact hj
    have hih := ih (stepMain x.1 x.2 s).1 j hnodup2 hj2
    have hidkeep : (nthPlayer (stepMain x.1 x.2 s).1.pool j).player_id =
        (nthPlayer s.pool j).player_id := by
      rw [hs2pool, hpool2]
      exact nthPlayer_genPool_id s.pool x.2 j
    rw [hidkeep] at hih
    have hrun : runMain (x :: rest) s =
        ((runMain rest (stepMain x.1 x.2 s).1).1,
         (stepMain x.1 x.2 s).2 :: (runMain rest (stepMain x.1 x.2 s).1).2) := rfl
    rw [hrun]
    simp only [List.filter_cons]
    have hevid : (stepMain x.1 x.2 s).2.player_id =
        (nthPlayer s.pool (selIdx s.pool x.2)).player_id := by
      have : (stepMain x.1 x.2 s).2 = genEvent s.pool x.2 := rfl
      rw [this]
      exact genEvent_player_id s.pool x.2
    have hevpts : (stepMain x.1 x.2 s).2.points = genPoints x.2 := rfl
    by_cases hcase : j = selIdx s.pool x.2
    · have hbeq : ((stepMain x.1 x.2 s).2.player_id ==
          (nthPlayer s.pool j).player_id) = true := by
        rw [hevid, hcase]
        exact beq_self_eq_true _
      rw [hbeq]
      simp only [List.map_cons, List.sum_cons, if_true]
      rw [hih, hs2pool, hpool2, nthPlayer_genPool_total_points s.pool x.2 hpos j]
      rw [if_pos hcase, hevpts]
      ring
    · have hbeq : ((stepMain x.1 x.2 s).2.player_id ==
          (nthPlayer s.pool j).player_id) = false := by
        rw [hevid]
        exact beq_eq_false_iff_ne.mpr
          (nthPlayer_id_ne s.pool hnodup (selIdx s.pool x.2) j hi hj
            (fun hh => hcase hh.symm))
      rw [hbeq]
      simp only [Bool.false_eq_true, if_false]
      rw [hih, hs2pool, hpool2, nthPlayer_genPool_total_points s.pool x.2 hpos j]
      simp [hcase]

/-- Property of C1: the final `total_points` of slot `j` equals its starting
value plus the sum of the `points` of the events that selected it
(identified by its `player_id`); in particular when the slot starts at zero
(as after `init_player_pool`) it equals exactly that sum, whatever the
persistence outcomes were. -/
def totalPointsInvariant (inputs : List (Bool × RandInput)) (s : LoopState) (j : Nat) :
    Prop :=
  (nthPlayer (runMain inputs s).1.pool j).total_points =
    (nthPlayer s.pool j).total_points +
      (((runMain inputs s).2.filter
          (fun e => e.player_id == (nthPlayer s.pool j).player_id)).map
        Event.points).sum ∧
  ((nthPlayer s.pool j).total_points = 0 →
    (nthPlayer (runMain inputs s).1.pool j).total_points =
      (((runMain inputs s).2.filter
          (fun e => e.player_id == (nthPlayer s.pool j).player_id)).map
        Event.points).sum)

/-- C1: for every player slot and every schedule of loop iterations —
whether or not each event's insert succeeded — the player's `total_points`
ends at its starting value plus the exact sum of the `points` of the events
that selected that player (accumulation by addition, never replacement). -/
theorem total_points_sum (inputs : List (Bool × RandInput)) (s : LoopState) (j : Nat)
    (hnodup : (s.pool.map Player.player_id).Nodup) (hj : j < s.pool.length) :
    totalPointsInvariant inputs s j := by
  have h := totalPoints_run inputs s j hnodup hj
  refine ⟨h, fun h0 => ?_⟩
  rw [h, h0, zero_add]

/-! ### Lemmas for the top-N selection -/

theorem filter_orderedInsert_pos (q : Player → Bool) (a : Player) (l : List Player)
    (ha : q a = true) (hall : ∀ b ∈ l, q b = true → ptsGe a b) :
    (List.orderedInsert ptsGe a l).filter q = a :: l.filter q := by
  induction l with
  | nil => simp [List.orderedInsert, ha]
  | cons b l ih =>
    simp only [List.orderedInsert]
    split
    · rw [List.filter_cons, ha]
      simp
    · rename_i hnr
      have hqb : q b = false := by
        by_contra hq
        exact hnr (hall b (List.mem_cons_self _ _) (by simpa using hq))
      rw [List.filter_cons, hqb]
      simp only [Bool.false_eq_true, if_false]
      rw [ih (fun c hc hqc => hall c (List.mem_cons_of_mem _ hc) hqc)]
      rw [List.filter_cons, hqb]
      simp

theorem filter_orderedInsert_neg (q : Player → Bool) (a : Player) (l : List Player)
    (ha : q a = false) :
    (List.orderedInsert ptsGe a l).filter q = l.filter q := by
  induction l with
  | nil => simp [List.orderedInsert, ha]
  | cons b l ih =>
    simp only [List.orderedInsert]
    split
    · rw [List.filter_cons, ha]
      simp
    · rw [List.filter_cons, List.filter_cons]
      cases hqb : q b <;> simp [hqb, ih]

theorem sortByPoints_stable (pool : List Player) (c : Int) :
    (sortByPoints pool).filter (fun p => p.total_points == c) =
      pool.filter (fun p => p.total_points == c) := by
  unfold sortByPoints
  induction pool with
  | nil => rfl
  | cons a l ih =>
    simp only [List.insertionSort]
    by_cases ha : a.total_points = c
    · rw [filter_orderedInsert_pos (fun p => p.total_points == c) a _ (by simpa using ha)
        ?_]
      · rw [ih, List.filter_cons]
        simp [ha]
      · intro b _ hqb
        have hb : b.total_points = c := by simpa using hqb
        unfold ptsGe
        rw [hb, ha]
    · rw [filter_orderedInsert_neg (fun p => p.total_points == c) a _ (by simpa using ha),
        ih, List.filter_cons]
      simp [ha]

/-- Property of C9: the reporting selection is a stable descending sort on
`total_points` truncated to `n`: it is a prefix of a permutation of the pool,
sorted descending, every kept player dominates every dropped one, and players
with equal `total_points` keep their pool order. -/
def topNCorrect (n : Nat) (pool : List Player) : Prop :=
  (sortByPoints pool).Perm pool ∧
  List.Sorted ptsGe (sortByPoints pool) ∧
  topN n pool = (sortByPoints pool).take n ∧
  (topN n pool).length = min n pool.length ∧
  (∀ p ∈ topN n pool, ∀ q ∈ (sortByPoints pool).drop n, ptsGe p q) ∧
  (∀ c : Int, (sortByPoints pool).filter (fun p => p.total_points == c) =
      pool.filter (fun p => p.total_points == c)) ∧
  top_players pool = topN 3 pool

/-- C9: for every pool state and every `n`, the reporting selection returns
the `n` players with the highest `total_points` in descending order, with
ties kept in original pool order (stable sort). -/
theorem topN_correct (n : Nat) (pool : List Player) : topNCorrect n pool := by
  have hperm : (sortByPoints pool).Perm pool := List.perm_insertionSort ptsGe pool
  have hsorted : List.Sorted ptsGe (sortByPoints pool) :=
    List.sorted_insertionSort ptsGe pool
  refine ⟨hperm, hsorted, rfl, ?_, ?_, sortByPoints_stable pool, rfl⟩
  · rw [topN, List.length_take, hperm.length_eq]
  · have hsplit : List.Sorted ptsGe
        ((sortByPoints pool).take n ++ (sortByPoints pool).drop n) := by
      rw [List.take_append_drop]
      exact hsorted
    have h3 := (List.pairwise_append.mp hsplit).2.2
    intro p hp q hq
    exact h3 p hp q hq
/-! ### Concrete fixtures and witnesses -/

/-- Two-player pool used to instantiate the theorems on concrete data. -/
def poolEx : List Player :=
  [{ player_id := "PLAYER_0000", player_name := "alice", level := 99,
     total_points := 0, kills := 0, deaths := 0 },
   { player_id := "PLAYER_0001", player_name := "bob", level := 5,
     total_points := 7, kills := 2, deaths := 1 }]

/-- Concrete randomness: first player, roll 0 (a `kill`), no 5% roll. -/
def rndEx : RandInput :=
  { playerRoll := 0, actionRoll := 0, pointsRoll := 3, levelRoll := false,
    weaponRoll := 4, mapRoll := 2 }

/-- Concrete loop state over `poolEx` with no events counted yet. -/
def sEx : LoopState := { pool := poolEx, event_count := 0 }

theorem total_points_sum_witness :
    ((sEx.pool.map Player.player_id).Nodup ∧ 0 < sEx.pool.length) ∧
      totalPointsInvariant [(true, rndEx), (false, rndEx)] sEx 0 :=
  ⟨⟨by decide, by decide⟩,
    total_points_sum [(true, rndEx), (false, rndEx)] sEx 0 (by decide) (by decide)⟩

theorem generate_event_level_rule_witness :
    (0 < poolEx.length ∧ levelRuleCorrect poolEx rndEx) ∧
      ∀ j, (nthPlayer (runMain [(true, rndEx), (false, rndEx)] sEx).1.pool j).level ≤ 100 := by
  have hcap : ∀ j, (nthPlayer sEx.pool j).level ≤ 100 := by
    intro j
    match j with
    | 0 => decide
    | 1 => decide
    | k + 2 =>
      show (nthPlayer poolEx (k + 2)).level ≤ 100
      simp [nthPlayer, poolEx, dfltPlayer, List.getD_eq_getElem?_getD]
  exact ⟨⟨by decide, generate_event_level_rule.1 poolEx rndEx (by decide)⟩,
    generate_event_level_rule.2.2 [(true, rndEx), (false, rndEx)] sEx hcap⟩

theorem chooseAction_weights_witness :
    ActionType.assist ∈ actionList ∧
      ((Finset.range totalWeight).filter
          (fun r => chooseAction r = ActionType.assist)).card =
        weight ActionType.assist :=
  ⟨by decide, chooseAction_weights.2 ActionType.assist (by decide)⟩

theorem generate_event_kills_deaths_witness :
    0 < poolEx.length ∧ killsDeathsCorrect poolEx rndEx :=
  ⟨by decide, generate_event_kills_deaths poolEx rndEx (by decide)⟩

theorem generate_event_fields_witness :
    0 < poolEx.length ∧ eventFieldsCorrect poolEx rndEx :=
  ⟨by decide, generate_event_fields poolEx rndEx (by decide)⟩

theorem generate_event_frame_witness : frameCorrect poolEx rndEx :=
  generate_event_frame poolEx rndEx

theorem init_player_pool_correct_witness :
    1 ≤ 3 ∧ initPoolCorrect 3 (fun _ => "user") (fun k => k) :=
  ⟨by decide, init_player_pool_correct 3 (fun _ => "user") (fun k => k)⟩

theorem death_only_negative_witness :
    0 < poolEx.length ∧ pointsMonotonicity poolEx rndEx :=
  ⟨by decide, death_only_negative.2.2.2 poolEx rndEx (by decide)⟩

end Game
